import Mathlib

/-!
Verification development for the YouTube transcript acquisition engine
(`transcript_available.py` and the `/api/transcripts` handler of `main.py`).
Python functions are shallowly embedded as executable Lean definitions:
strings become `List Char`, Python floats become `Rat`, exceptions become
`Except`, and the external captions provider is an explicit oracle argument.
-/

deriving instance DecidableEq for Except

namespace YTS

/-- Error kinds corresponding to the distinct `raise TranscriptError(...)`
sites of `transcript_available.py`. -/
inductive TErr where
  /-- raised by `extract_video_id` when no URL pattern matches (lines 47-49) -/
  | invalidURL
  /-- raised when `list_transcripts` fails (lines 80-84) -/
  | listFailed
  /-- raised when no transcript exists in any language (lines 150-154) -/
  | noTranscript
  /-- raised by the generic `except` of the selection block (lines 155-157) -/
  | findFailed
  /-- raised when transcript data could not be extracted (lines 189-195) -/
  | fetchDataFailed
  /-- any exception escaping to the outermost handler (lines 299-301) -/
  | outerFailed
deriving DecidableEq, Repr

/-! ## Video Reference Resolver (`extract_video_id`, lines 26-49) -/

/-- Membership in the regex character class `[0-9A-Za-z_-]`. -/
def isIdChar (c : Char) : Bool :=
  ('0' ≤ c && c ≤ '9') || ('A' ≤ c && c ≤ 'Z') || ('a' ≤ c && c ≤ 'z')
    || c = '_' || c = '-'

/-- The `{11}` quantifier: succeed with the next 11 characters when at least
11 characters of the class `[0-9A-Za-z_-]` follow. -/
def takeIf11 (l : List Char) : Option (List Char) :=
  let t := l.take 11
  if t.all isIdChar && t.length == 11 then some t else none

/-- Pattern `(?:v=|\/)([0-9A-Za-z_-]{11}).*` anchored at the current
position: branch `v=` is tried before branch `/`, and the trailing `.*`
always succeeds, so the group is the 11 characters after the marker. -/
def pat1At (l : List Char) : Option (List Char) :=
  match l with
  | 'v' :: '=' :: rest => takeIf11 rest
  | '/' :: rest => takeIf11 rest
  | _ => none

/-- Pattern `(?:youtu\.be\/)([0-9A-Za-z_-]{11})` anchored at the current
position. -/
def pat2At (l : List Char) : Option (List Char) :=
  match l with
  | 'y' :: 'o' :: 'u' :: 't' :: 'u' :: '.' :: 'b' :: 'e' :: '/' :: rest => takeIf11 rest
  | _ => none

/-- Pattern `(?:embed\/)([0-9A-Za-z_-]{11})` anchored at the current
position. -/
def pat3At (l : List Char) : Option (List Char) :=
  match l with
  | 'e' :: 'm' :: 'b' :: 'e' :: 'd' :: '/' :: rest => takeIf11 rest
  | _ => none

/-- `re.search`: try the anchored pattern at every position from the left
and return the first group found. -/
def searchWith (p : List Char → Option (List Char)) : List Char → Option (List Char)
  | [] => none
  | c :: rest =>
    match p (c :: rest) with
    | some g => some g
    | none => searchWith p rest

/-- `extract_video_id` (lines 26-49): try the three patterns in order, first
match wins, otherwise raise `TranscriptError`. -/
def extract_video_id (url : List Char) : Except TErr (List Char) :=
  match searchWith pat1At url with
  | some g => .ok g
  | none =>
    match searchWith pat2At url with
    | some g => .ok g
    | none =>
      match searchWith pat3At url with
      | some g => .ok g
      | none => .error .invalidURL

/-! ## Language Selection Policy (`get_transcript`, lines 86-157) -/

/-- The `TranscriptLanguage` enum (lines 16-20). -/
inductive Lang where
  | en
  | hi
  | auto
deriving DecidableEq, Repr

/-- The `.value` of a `TranscriptLanguage` member. -/
def Lang.code : Lang → List Char
  | .en => ['e', 'n']
  | .hi => ['h', 'i']
  | .auto => ['a', 'u', 't', 'o']

/-- Python `str.startswith`: `isPre p s` means `s` starts with `p`. -/
def isPre : List Char → List Char → Bool
  | [], _ => true
  | _ :: _, [] => false
  | a :: p, b :: s => a = b && isPre p s

/-- The transcript catalog returned by `list_transcripts`: the language
codes of `_manually_created_transcripts` and `_generated_transcripts`, each
in the provider-supplied insertion order (dict keys are unique per dict). -/
structure Catalog where
  manual : List (List Char)
  gen : List (List Char)
deriving DecidableEq, Repr

/-- `all_transcripts = _manually_created_transcripts.copy();
all_transcripts.update(_generated_transcripts)` (lines 101-102).
Each entry is the language code paired with the `is_generated` flag of the
stored transcript object: `update` keeps the position of a key already
present in the manual dict but replaces its value with the generated
transcript, and keys only in the generated dict are appended; the flag
computed at lines 109/126/143 is `lang_code in _generated_transcripts`. -/
def merged (c : Catalog) : List (List Char × Bool) :=
  c.manual.map (fun k => (k, c.gen.contains k))
    ++ (c.gen.filter (fun k => !c.manual.contains k)).map (fun k => (k, true))

/-- The three-step selection of lines 96-148: first the explicit preferred
language by prefix match over the merged dict, then the fallback list
`["en", "hi"]`, then the first entry of the merged dict; raising
`TranscriptError` (via `NoTranscriptFound`, lines 145-154) when the merged
dict is empty. -/
def selectTrack (c : Catalog) (pref : Lang) : Except TErr (List Char × Bool) :=
  let m := merged c
  let step1 :=
    if pref ≠ Lang.auto then m.find? (fun p => isPre pref.code p.1) else none
  match step1 with
  | some t => .ok t
  | none =>
    match m.find? (fun p => isPre ['e', 'n'] p.1) with
    | some t => .ok t
    | none =>
      match m.find? (fun p => isPre ['h', 'i'] p.1) with
      | some t => .ok t
      | none =>
        match m.head? with
        | some t => .ok t
        | none => .error .noTranscript

/-! ## Provider payload shapes and the normalizer (lines 160-195) -/

/-- One element of a fetched payload: either a Python dict with (possibly
missing) `start`/`duration`/`text` keys, or an attribute-bearing object with
(possibly missing) `start`/`duration`/`text` attributes.  Numeric fields are
modelled as `Rat`, text as `List Char`. -/
inductive Item where
  | dict (start duration : Option Rat) (text : Option (List Char))
  | attr (start duration : Option Rat) (text : Option (List Char))
deriving DecidableEq, Repr

/-- The shape of what `transcript.fetch()` returns: a plain list, a non-list
iterable, a non-iterable object carrying a `transcript` attribute, or
anything else. -/
inductive Payload where
  | plainList (items : List Item)
  | iterable (items : List Item)
  | wrapped (items : List Item)
  | other
deriving DecidableEq, Repr

/-- Lines 162-187: a list payload is taken as-is; a non-list iterable keeps
an item only when it carries all three attributes (rebuilt as a dict) or is
a dict with all three keys; the `TypeError` path copies the nested
`transcript` sequence as-is; otherwise nothing is extracted. -/
def normalizeItems : Payload → List Item
  | .plainList its => its
  | .iterable its =>
    its.filterMap (fun i =>
      match i with
      | .attr (some s) (some d) (some t) => some (.dict (some s) (some d) (some t))
      | .dict (some s) (some d) (some t) => some (.dict (some s) (some d) (some t))
      | _ => none)
  | .wrapped its => its
  | .other => []

/-- Lines 160-195 as a whole: empty extracted data raises `TranscriptError`
(wrapped by the `except` at lines 193-195). -/
def normalizePayload (p : Payload) : Except TErr (List Item) :=
  let d := normalizeItems p
  if d.isEmpty then .error .fetchDataFailed else .ok d

/-! ## Timestamp formatting (`format_duration`, lines 22-24) -/

/-- Python `int(...)` on a float: truncation toward zero. -/
def pyTrunc (q : Rat) : Int :=
  if q < 0 then -Rat.floor (-q) else Rat.floor q

/-- Decimal digits of a natural number, two characters wide. -/
def two (n : Nat) : List Char :=
  if n < 10 then '0' :: Nat.toDigits 10 n else Nat.toDigits 10 n

/-- Decimal digits of an integer. -/
def intDigits (i : Int) : List Char :=
  if i < 0 then '-' :: Nat.toDigits 10 i.natAbs else Nat.toDigits 10 i.natAbs

/-- `str(timedelta(seconds=n))`: `timedelta` normalises to whole days plus a
non-negative remainder, rendered as `H:MM:SS` with an optional
`D day(s), ` head. -/
def timedeltaStr (n : Int) : List Char :=
  let days := Int.fdiv n 86400
  let rem := (n - 86400 * days).toNat
  let h := rem / 3600
  let m := (rem % 3600) / 60
  let s := rem % 60
  (if days = 0 then [] else
    intDigits days ++ (if days = 1 ∨ days = -1 then " day, ".toList else " days, ".toList))
    ++ Nat.toDigits 10 h ++ ':' :: two m ++ ':' :: two s

/-- `format_duration` (lines 22-24): `str(timedelta(seconds=int(seconds)))`. -/
def format_duration (q : Rat) : List Char :=
  timedeltaStr (pyTrunc q)

/-! ## Python string trimming (`str.strip()`) -/

/-- Python `str.strip()` whitespace (the ASCII whitespace characters). -/
def isPySpace (c : Char) : Bool :=
  c = ' ' || c = '\t' || c = '\n' || c = '\r' || c = '\x0b' || c = '\x0c'

/-- Left trim. -/
def stripL (l : List Char) : List Char := l.dropWhile isPySpace

/-- Right trim. -/
def stripR (l : List Char) : List Char := (l.reverse.dropWhile isPySpace).reverse

/-- Python `str.strip()`. -/
def pyStrip (l : List Char) : List Char := stripR (stripL l)

/-! ## Transcript Assembler (lines 197-226) -/

/-- The string a single entry contributes to `full_transcript`:
`f"[{timestamp}] {text}\n"` when its stripped text is non-empty, nothing
otherwise (lines 211-223). -/
def pieceOf (s : Rat) (t : List Char) : List Char :=
  let tx := pyStrip t
  if tx.isEmpty then [] else '[' :: (format_duration s ++ ']' :: ' ' :: tx ++ ['\n'])

/-- Field access performed by the assembly loop (lines 213-220): a dict uses
`entry['start']` / `entry['text']` (a missing key raises, reaching the
outermost handler), an object uses `entry.start` / `entry.text` with
defaults `0` and `""`. -/
def renderItem : Item → Except TErr (List Char)
  | .dict s _ t =>
    match s, t with
    | some sv, some tv => .ok (pieceOf sv tv)
    | _, _ => .error .outerFailed
  | .attr s _ t => .ok (pieceOf (s.getD 0) (t.getD []))

/-- Sequential effectful map over a list (the Python `for` loop: the first
raised exception aborts the whole traversal). -/
def mapE (f : α → Except ε β) : List α → Except ε (List β)
  | [] => .ok []
  | a :: l => do
    let b ← f a
    let bs ← mapE f l
    .ok (b :: bs)

/-- Lines 211-223 followed by the final `.strip()` of line 226. -/
def assembleText (data : List Item) : Except TErr (List Char) := do
  let ps ← mapE renderItem data
  .ok (pyStrip ps.flatten)

/-- Lines 197-209: duration is `0` for an empty sequence, otherwise
`start + duration` of the last entry, with dict entries requiring both keys
and object entries defaulting missing attributes to `0`. -/
def calcDuration (data : List Item) : Except TErr Rat :=
  match data.getLast? with
  | none => .ok 0
  | some it =>
    match it with
    | .dict s d _ =>
      match s, d with
      | some sv, some dv => .ok (sv + dv)
      | _, _ => .error .outerFailed
    | .attr s d _ => .ok (s.getD 0 + d.getD 0)

/-! ## The result record and the Translation Fallback (lines 225-292) -/

/-- The result dict of `get_transcript` (lines 225-232 / docstring). -/
structure TResult where
  text : List Char
  language : List Char
  duration : Rat
  translated : Bool
  original_language : List Char
  is_generated : Bool
deriving DecidableEq, Repr

/-- Lines 225-232: the result dict built from the untranslated transcript;
`translated` is still the `False` of line 88 and `original_language` is set
to the selected language itself. -/
def buildResult (lang : List Char) (isGen : Bool) (text : List Char) (dur : Rat) : TResult :=
  { text := text, language := lang, duration := dur, translated := false,
    original_language := lang, is_generated := isGen }

/-- Dict/attribute access of the translated-payload loop in its list branch
(lines 248-258) and in the `transcript`-attribute branch (lines 270-280):
dicts require the `start` and `text` keys (a missing key raises inside the
translation `try`), objects default to `0` and `""`. -/
def transPieceDict : Item → Except Unit (List Char)
  | .dict s _ t =>
    match s, t with
    | some sv, some tv => .ok (pieceOf sv tv)
    | _, _ => .error ()
  | .attr s _ t => .ok (pieceOf (s.getD 0) (t.getD []))

/-- Attribute-only access of the translated-payload loop in its iterable
branch (lines 261-266): every item is read through `hasattr` with defaults,
so a dict contributes the defaults `0` and `""`. -/
def transPieceAttr : Item → Except Unit (List Char)
  | .attr s _ t => .ok (pieceOf (s.getD 0) (t.getD []))
  | .dict _ _ _ => .ok (pieceOf 0 [])

/-- Lines 245-283: the translated text assembled from the translated
payload, stripped at the update of line 283.  A payload that is neither a
list nor iterable nor carries a `transcript` attribute leaves
`translated_text` empty. -/
def translatedTextOf : Payload → Except Unit (List Char)
  | .plainList its => do
    let ps ← mapE transPieceDict its
    .ok (pyStrip ps.flatten)
  | .iterable its => do
    let ps ← mapE transPieceAttr its
    .ok (pyStrip ps.flatten)
  | .wrapped its => do
    let ps ← mapE transPieceDict its
    .ok (pyStrip ps.flatten)
  | .other => .ok (pyStrip [])

/-- The provider operations the translation block consumes, as an oracle:
the `translation_languages` attribute access of line 239 and the combined
`transcript.translate(code).fetch()` of lines 243-244, each of which may
raise. -/
structure TransOracle where
  translationLanguages : Except Unit (List (List Char))
  translateFetch : List Char → Except Unit Payload

/-- Lines 234-291: when the preference is explicit and differs from the
selected language, check the advertised translation set, translate, fetch
and render; on success overwrite `text`, `language`, `translated` and
`original_language` (lines 282-287); any exception in the block is caught
at lines 289-290 and the original result is kept. -/
def maybeTranslate (o : TransOracle) (pref : Lang) (res : TResult) : TResult :=
  if pref ≠ Lang.auto ∧ res.language ≠ pref.code then
    match o.translationLanguages with
    | .error _ => res
    | .ok tls =>
      if pref.code ∈ tls then
        match o.translateFetch pref.code with
        | .error _ => res
        | .ok pl =>
          match translatedTextOf pl with
          | .error _ => res
          | .ok txt =>
            { res with text := txt, language := pref.code, translated := true,
                       original_language := res.language }
      else res
  else res

/-! ## The `/api/transcripts` handler (`fetch_transcripts`, `main.py` lines 90-166) -/

/-- A Python exception escaping one `get_transcript(...)` call site. -/
inductive PyExc where
  | typeError
  | tErr (e : TErr)
deriving DecidableEq, Repr

/-- CPython keyword-argument binding for a call with `nPos` positional
arguments: every keyword must name a formal parameter that is not already
bound positionally, otherwise the call raises `TypeError` before the callee
body runs. -/
def bindOk (params : List (List Char)) (nPos : Nat) (kwargs : List (List Char)) : Bool :=
  decide (nPos ≤ params.length) && kwargs.all (fun k => (params.drop nPos).contains k)

/-- The single call site of lines 113-117:
`get_transcript(url, preferred_language=..., max_retries=1)` against the
signature `get_transcript(url, preferred_language=...)` (lines 51-54).
`body` is what the callee would return were the call to bind; the second
component counts how many times the callee body (and hence any provider
interaction) actually ran. -/
def attemptCall (body : Except TErr TResult) : Except PyExc TResult × Nat :=
  if bindOk ["url".toList, "preferred_language".toList] 1
      ["preferred_language".toList, "max_retries".toList] then
    (body.mapError .tErr, 1)
  else (.error .typeError, 0)

/-- The `for attempt in range(3)` loop of lines 106-144 for one URL,
unrolled: result, body runs, backoff sleeps (`2 ** attempt` seconds after
the failures of attempts 0 and 1), attempts made. -/
def tryURL (b : Except TErr TResult) : Option TResult × Nat × List Nat × Nat :=
  match attemptCall b with
  | (.ok t, n0) => (some t, n0, [], 1)
  | (.error _, n0) =>
    match attemptCall b with
    | (.ok t, n1) => (some t, n0 + n1, [1], 2)
    | (.error _, n1) =>
      match attemptCall b with
      | (.ok t, n2) => (some t, n0 + n1 + n2, [1, 2], 3)
      | (.error _, n2) => (none, n0 + n1 + n2, [1, 2], 3)

/-- Observable trace of one handler invocation. -/
structure HandlerTrace where
  succeeded : List (List Char)
  failed : List (List Char)
  bodyCalls : Nat
  sleeps : List Nat
  attempts : Nat
  status : Nat
deriving DecidableEq, Repr

/-- Lines 146-156: with no successful transcript the handler raises
`HTTPException(status_code=400, ...)` inside its own `try`. -/
def innerStatus (succeeded : List (List Char)) : Except Nat Unit :=
  if succeeded.isEmpty then .error 400 else .ok ()

/-- Lines 164-166: `HTTPException` is an `Exception`, so the blanket
`except Exception` catches the 400 raised at lines 146-156 and re-raises
`HTTPException(status_code=500, detail=str(e))`. -/
def finalStatus (succeeded : List (List Char)) : Nat :=
  match innerStatus succeeded with
  | .error _ => 500
  | .ok _ => 200

/-- One iteration of the `for url in request.urls` loop (lines 105-144). -/
def handlerStep (body : List Char → Except TErr TResult)
    (acc : HandlerTrace) (url : List Char) : HandlerTrace :=
  match tryURL (body url) with
  | (some _, n, sl, att) =>
    { acc with succeeded := acc.succeeded ++ [url],
               bodyCalls := acc.bodyCalls + n,
               sleeps := acc.sleeps ++ sl, attempts := acc.attempts + att }
  | (none, n, sl, att) =>
    { acc with failed := acc.failed ++ [url],
               bodyCalls := acc.bodyCalls + n,
               sleeps := acc.sleeps ++ sl, attempts := acc.attempts + att }

/-- The `/api/transcripts` handler (lines 90-166) over the URL list, with
the per-URL `get_transcript` outcome abstracted as `body`. -/
def fetch_transcripts (body : List Char → Except TErr TResult)
    (urls : List (List Char)) : HandlerTrace :=
  let acc := urls.foldl (handlerStep body)
    { succeeded := [], failed := [], bodyCalls := 0, sleeps := [], attempts := 0,
      status := 0 }
  { acc with status := finalStatus acc.succeeded }

/-! ## Fetch Strategy Retrier (spec §4.4) -/

/-- Modelled from the spec: the Fetch Strategy Retrier of §4.4 (rounds of
ordered request strategies with exponential backoff) is not among the
provided source files — `transcript_available.py` performs a single
`transcript.fetch()`.  Errors are partitioned as §4.4/§7 require: permanent
conditions (captions disabled, no track found) versus transient failures. -/
inductive FetchErr where
  | transient (tag : Nat)
  | permanent (tag : Nat)
deriving DecidableEq, Repr

/-- Whether an error is a permanent condition. -/
def FetchErr.isPermanent : FetchErr → Bool
  | .permanent _ => true
  | .transient _ => false

/-- Observable trace of the retrier: final outcome, number of provider
calls, and the backoff sleeps performed (in seconds). -/
structure RetryTrace (α : Type) where
  result : Except FetchErr α
  calls : Nat
  sleeps : List Nat
deriving Repr

/-- Modelled from the spec: one round over the ordered strategy list
(§4.4).  The first strategy that returns without raising short-circuits the
round; a permanent error is surfaced at once; if every strategy fails
transiently the round reports the last-seen error.  Returns the round
outcome (`none` for an empty strategy list) and the number of calls made. -/
def runRound {α : Type} : List (Except FetchErr α) → Option (Except FetchErr α) × Nat
  | [] => (none, 0)
  | o :: rest =>
    match o with
    | .ok a => (some (.ok a), 1)
    | .error e =>
      if e.isPermanent then (some (.error e), 1)
      else
        match runRound rest with
        | (none, n) => (some (.error e), n + 1)
        | (some r, n) => (some r, n + 1)

/-- Modelled from the spec: the outer retry loop of §4.4 from round `r` with
`remaining` rounds left.  A wholly (transiently) failed round sleeps
`2 ^ r` seconds and begins the next round; the final round's error is
propagated; a permanent error is surfaced immediately with no further
rounds or sleeps. -/
def retrierGo {α : Type} (outcome : Nat → List (Except FetchErr α)) :
    Nat → Nat → RetryTrace α
  | _, 0 => ⟨.error (.transient 0), 0, []⟩
  | r, remaining + 1 =>
    match runRound (outcome r) with
    | (some (.ok a), n) => ⟨.ok a, n, []⟩
    | (some (.error e), n) =>
      if e.isPermanent ∨ remaining = 0 then ⟨.error e, n, []⟩
      else
        let t := retrierGo outcome (r + 1) remaining
        ⟨t.result, n + t.calls, 2 ^ r :: t.sleeps⟩
    | (none, n) => ⟨.error (.transient 0), n, []⟩

/-- Modelled from the spec: `fetch` with `rounds` retry rounds (§4.4,
default 3), where `outcome r` lists the result of each strategy, in
strategy order, as it would be observed in round `r`. -/
def fetchWithRetry {α : Type} (rounds : Nat)
    (outcome : Nat → List (Except FetchErr α)) : RetryTrace α :=
  retrierGo outcome 0 rounds

/-! ## Entry triples and the assembler contract (spec 4.5, 4.7) -/

/-- A `TranscriptEntry` triple `(startOffsetSeconds, durationSeconds, text)`. -/
def Entry : Type := Rat × Rat × List Char

/-- The triple as a record-shaped (dict) payload item carrying the three
fields. -/
def entryDict (e : Entry) : Item := .dict (some e.1) (some e.2.1) (some e.2.2)

/-- The triple as an attribute-shaped payload item carrying the three
fields. -/
def entryAttr (e : Entry) : Item := .attr (some e.1) (some e.2.1) (some e.2.2)

/-- Whether the assembler keeps an entry: its stripped text is non-empty. -/
def keepEntry (e : Entry) : Bool := !(pyStrip e.2.2).isEmpty

/-- The rendered line of a kept entry, as the spec's assembler contract
states it: a `[H:MM:SS]` timestamp followed by the trimmed text. -/
def lineOf (e : Entry) : List Char :=
  '[' :: (format_duration e.1 ++ ']' :: ' ' :: pyStrip e.2.2)

/-- The lines the assembler must emit, in entry order. -/
def renderedLines (es : List Entry) : List (List Char) :=
  (es.filter keepEntry).map lineOf

/-- Lines joined by a newline separator (no trailing newline): what the
spec's assembler contract describes after trailing whitespace is trimmed. -/
def interLines : List (List Char) → List Char
  | [] => []
  | [l] => l
  | l :: ls => l ++ '\n' :: interLines ls

/-- Each line followed by a newline, concatenated: the loop of lines
211-223 before the final strip. -/
def joinNL (ls : List (List Char)) : List Char :=
  (ls.map (fun l => l ++ ['\n'])).flatten

/-- The duration the spec derives: `0` for an empty sequence, otherwise the
last entry's `startOffsetSeconds + durationSeconds`. -/
def durSpec (es : List Entry) : Rat :=
  match es.getLast? with
  | none => 0
  | some e => e.1 + e.2.1

/-! ## Helper lemmas: regex search -/

theorem searchWith_append_none (p : List Char → Option (List Char)) :
    ∀ (l₁ l₂ : List Char), (∀ t ∈ l₁.tails, t ≠ [] → p (t ++ l₂) = none) →
    searchWith p (l₁ ++ l₂) = searchWith p l₂ := by
  intro l₁
  induction l₁ with
  | nil => intro l₂ _; rfl
  | cons a l ih =>
    intro l₂ h
    have ha : p (a :: (l ++ l₂)) = none := by
      have := h (a :: l) (by simp [List.tails_cons]) (by simp)
      simpa using this
    rw [List.cons_append, searchWith, ha]
    exact ih l₂ (fun t ht hne => h t (by simp [List.tails_cons, ht]) hne)

theorem searchWith_eq_none (p : List Char → Option (List Char)) :
    ∀ s : List Char, (∀ t ∈ s.tails, p t = none) → searchWith p s = none := by
  intro s
  induction s with
  | nil => intro _; rfl
  | cons a l ih =>
    intro h
    rw [searchWith, h (a :: l) (by simp [List.tails_cons])]
    exact ih (fun t ht => h t (by simp [List.tails_cons, ht]))

theorem searchWith_eq_some (p : List Char → Option (List Char)) :
    ∀ s g, searchWith p s = some g → ∃ t ∈ s.tails, p t = some g := by
  intro s
  induction s with
  | nil => intro g h; exact absurd h (by simp [searchWith])
  | cons a l ih =>
    intro g h
    rw [searchWith] at h
    rcases hp : p (a :: l) with _ | g2
    · rw [hp] at h
      obtain ⟨t, ht, hpt⟩ := ih g h
      exact ⟨t, by simp [List.tails_cons, ht], hpt⟩
    · rw [hp] at h
      cases h
      exact ⟨a :: l, by simp [List.tails_cons], hp⟩

theorem pat2At_imp_pat1At (t g : List Char) (h : pat2At t = some g) :
    pat1At (t.drop 8) = some g := by
  unfold pat2At at h
  split at h
  · simpa [pat1At] using h
  · cases h

theorem pat3At_imp_pat1At (t g : List Char) (h : pat3At t = some g) :
    pat1At (t.drop 5) = some g := by
  unfold pat3At at h
  split at h
  · simpa [pat1At] using h
  · cases h

theorem takeIf11_of_id (ids : List Char) (hlen : ids.length = 11)
    (hall : ids.all isIdChar = true) : takeIf11 ids = some ids := by
  unfold takeIf11
  have : ids.take 11 = ids := List.take_of_length_le (by omega)
  simp [this, hlen, hall]

/-! ## Claim C3 -/

/-- Claim C3 (counterexample): the input `https://vimeo.com/abcdefghijk`
contains none of the three supported URL shapes (no `v=` query, not a
`youtu.be` host, no `/embed/` path), yet the resolver returns the
identifier `abcdefghijk` instead of failing with `TranscriptError`. -/
theorem claim3_counterexample :
    extract_video_id "https://vimeo.com/abcdefghijk".toList
        = .ok "abcdefghijk".toList ∧
    extract_video_id "https://vimeo.com/abcdefghijk".toList
        ≠ .error TErr.invalidURL := by
  constructor
  · decide
  · decide

/-- Claim C3 (amended): for every 11-character identifier made of
`[0-9A-Za-z_-]`, all three documented URL shapes resolve to that identical
identifier; and the resolver fails with `TranscriptError` exactly on
strings in which no position matches the first pattern, i.e. no occurrence
of `v=` or `/` is followed by 11 identifier characters (strings outside the
three documented shapes, such as other hosts' URLs with an 11-character
path segment, are also accepted). -/
theorem claim3_amended :
    (∀ ids : List Char, ids.length = 11 → ids.all isIdChar = true →
      extract_video_id ("https://www.youtube.com/watch?v=".toList ++ ids) = .ok ids ∧
      extract_video_id ("https://youtu.be/".toList ++ ids) = .ok ids ∧
      extract_video_id ("https://www.youtube.com/embed/".toList ++ ids) = .ok ids) ∧
    (∀ s : List Char, s.tails.all (fun t => (pat1At t).isNone) = true →
      extract_video_id s = .error .invalidURL) := by
  constructor
  · intro ids hlen hall
    have htake := takeIf11_of_id ids hlen hall
    refine ⟨?_, ?_, ?_⟩
    · show extract_video_id
        ("https://www.youtube.com/watch?".toList ++ ('v' :: '=' :: ids)) = .ok ids
      have hsub : searchWith pat1At
          ("https://www.youtube.com/watch?".toList ++ ('v' :: '=' :: ids)) =
          searchWith pat1At ('v' :: '=' :: ids) := by
        apply searchWith_append_none
        intro t ht hne
        fin_cases ht <;> first | (exact absurd rfl hne) | rfl
      have hv : pat1At ('v' :: '=' :: ids) = some ids := htake
      rw [extract_video_id, hsub, searchWith, hv]
    · show extract_video_id ("https://youtu.be".toList ++ ('/' :: ids)) = .ok ids
      have hsub : searchWith pat1At ("https://youtu.be".toList ++ ('/' :: ids)) =
          searchWith pat1At ('/' :: ids) := by
        apply searchWith_append_none
        intro t ht hne
        fin_cases ht <;> first | (exact absurd rfl hne) | rfl
      have hv : pat1At ('/' :: ids) = some ids := htake
      rw [extract_video_id, hsub, searchWith, hv]
    · show extract_video_id
        ("https://www.youtube.com/embed".toList ++ ('/' :: ids)) = .ok ids
      have hsub : searchWith pat1At
          ("https://www.youtube.com/embed".toList ++ ('/' :: ids)) =
          searchWith pat1At ('/' :: ids) := by
        apply searchWith_append_none
        intro t ht hne
        fin_cases ht <;> first | (exact absurd rfl hne) | rfl
      have hv : pat1At ('/' :: ids) = some ids := htake
      rw [extract_video_id, hsub, searchWith, hv]
  · intro s h
    have h1 : ∀ t ∈ s.tails, pat1At t = none := by
      intro t ht
      have := (List.all_eq_true.mp h) t ht
      simpa [Option.isNone_iff_eq_none] using this
    have hs1 : searchWith pat1At s = none := searchWith_eq_none _ _ h1
    have hs2 : searchWith pat2At s = none := by
      rcases h2 : searchWith pat2At s with _ | g
      · rfl
      · obtain ⟨t, ht, hpt⟩ := searchWith_eq_some _ _ _ h2
        have hsuf : t <:+ s := (List.mem_tails _ _).mp ht
        have hsuf2 : t.drop 8 <:+ s := (List.drop_suffix 8 t).trans hsuf
        have := h1 (t.drop 8) ((List.mem_tails _ _).mpr hsuf2)
        rw [pat2At_imp_pat1At t g hpt] at this
        cases this
    have hs3 : searchWith pat3At s = none := by
      rcases h3 : searchWith pat3At s with _ | g
      · rfl
      · obtain ⟨t, ht, hpt⟩ := searchWith_eq_some _ _ _ h3
        have hsuf : t <:+ s := (List.mem_tails _ _).mp ht
        have hsuf2 : t.drop 5 <:+ s := (List.drop_suffix 5 t).trans hsuf
        have := h1 (t.drop 5) ((List.mem_tails _ _).mpr hsuf2)
        rw [pat3At_imp_pat1At t g hpt] at this
        cases this
    rw [extract_video_id, hs1, hs2, hs3]

/-- Claim C3 (witness): the amended theorem applied to the concrete
identifier `dQw4w9WgXcQ` and to the unmatched string `hello world`. -/
theorem claim3_amended_witness :
    extract_video_id "https://www.youtube.com/watch?v=dQw4w9WgXcQ".toList
        = .ok "dQw4w9WgXcQ".toList ∧
    extract_video_id "hello world".toList = .error TErr.invalidURL := by
  constructor
  · exact (claim3_amended.1 "dQw4w9WgXcQ".toList (by decide) (by decide)).1
  · exact claim3_amended.2 "hello world".toList (by decide)

/-! ## Helper lemmas: the merged transcript dict -/

theorem merged_snd (c : Catalog) : ∀ p ∈ merged c, p.2 = c.gen.contains p.1 := by
  intro p hp
  rcases List.mem_append.mp hp with h | h
  · obtain ⟨k, hk, rfl⟩ := List.mem_map.mp h
    rfl
  · obtain ⟨k, hk, rfl⟩ := List.mem_map.mp h
    have hk2 := List.mem_filter.mp hk
    simpa using (List.elem_eq_true_of_mem hk2.1).symm

theorem merged_nil_iff (c : Catalog) : merged c = [] ↔ c.manual = [] ∧ c.gen = [] := by
  constructor
  · intro h
    have h2 : c.manual = [] ∧ ∀ a ∈ c.gen, a ∈ c.manual := by simpa [merged] using h
    refine ⟨h2.1, ?_⟩
    rcases hg : c.gen with _ | ⟨a, l⟩
    · rfl
    · have := h2.2 a (by rw [hg]; simp)
      rw [h2.1] at this
      simp at this
  · rintro ⟨h1, h2⟩
    simp [merged, h1, h2]

/-! ## Claim C2 -/

/-- Claim C2 (counterexample): a catalog holding both a manual and an
auto-generated track with the language code `en`, selected with explicit
preference `en`, yields the auto-generated track (`is_generated = true`),
not the manual one: `dict.update` overwrites the manual entry. -/
theorem claim2_counterexample :
    selectTrack ⟨[['e', 'n']], [['e', 'n']]⟩ Lang.en = .ok (['e', 'n'], true) ∧
    selectTrack ⟨[['e', 'n']], [['e', 'n']]⟩ Lang.en ≠ .ok (['e', 'n'], false) := by
  constructor
  · decide
  · decide

/-- Claim C2 (amended): the selection step returns the first entry of the
merged catalog whose language code prefix-matches the explicit preference,
and the entry's `is_generated` flag is true exactly when that language code
also appears among the auto-generated tracks — so when a manual and an
auto-generated track share the matching language code the auto-generated
one is picked (`is_generated = true`), the opposite of a manual
preference. -/
theorem claim2_amended (c : Catalog) (pref : Lang) (lang : List Char) (b : Bool)
    (hp : pref ≠ Lang.auto)
    (hf : (merged c).find? (fun p => isPre pref.code p.1) = some (lang, b)) :
    selectTrack c pref = .ok (lang, b) ∧ b = c.gen.contains lang := by
  constructor
  · simp only [selectTrack]
    rw [if_pos hp, hf]
  · exact merged_snd c _ (List.mem_of_find?_eq_some hf)

/-- Claim C2 (witness): the amended theorem applied to the catalog with a
manual and an auto-generated `en` track and explicit preference `en`. -/
theorem claim2_amended_witness :
    selectTrack ⟨[['e', 'n']], [['e', 'n']]⟩ Lang.en = .ok (['e', 'n'], true) ∧
    true = (Catalog.mk [['e', 'n']] [['e', 'n']]).gen.contains ['e', 'n'] :=
  claim2_amended ⟨[['e', 'n']], [['e', 'n']]⟩ Lang.en ['e', 'n'] true
    (by decide) (by decide)

/-! ## Claim C4 -/

/-- Claim C4 (counterexample): with a manual French track and an
auto-generated French track and explicit preference `en` (no prefix match,
no English, no Hindi), the final fallback returns the auto-generated French
track, not the manual one that an enumeration of manual tracks before
auto-generated ones would put first. -/
theorem claim4_counterexample :
    selectTrack ⟨[['f', 'r']], [['f', 'r']]⟩ Lang.en = .ok (['f', 'r'], true) ∧
    selectTrack ⟨[['f', 'r']], [['f', 'r']]⟩ Lang.en ≠ .ok (['f', 'r'], false) := by
  constructor
  · decide
  · decide

/-- Claim C4 (amended): when the explicit preference has no prefix match
(or the preference is `AUTO`), selection falls back in this exact order:
first a track prefix-matching English, then one matching Hindi, then the
first entry of the merged catalog — whose enumeration lists the manual
language codes first and then the remaining auto-generated ones, but a code
present in both origins carries the auto-generated track (its flag equals
membership in the auto-generated dict); a catalog containing only a French
track with preference `AUTO` yields the French track without error, and
selection fails only when the catalog is empty. -/
theorem claim4_amended :
    (∀ (c : Catalog) (pref : Lang) (t : List Char × Bool),
      (pref = Lang.auto ∨ (merged c).find? (fun p => isPre pref.code p.1) = none) →
      (merged c).find? (fun p => isPre ['e', 'n'] p.1) = some t →
      selectTrack c pref = .ok t) ∧
    (∀ (c : Catalog) (pref : Lang) (t : List Char × Bool),
      (pref = Lang.auto ∨ (merged c).find? (fun p => isPre pref.code p.1) = none) →
      (merged c).find? (fun p => isPre ['e', 'n'] p.1) = none →
      (merged c).find? (fun p => isPre ['h', 'i'] p.1) = some t →
      selectTrack c pref = .ok t) ∧
    (∀ (c : Catalog) (pref : Lang) (t : List Char × Bool),
      (pref = Lang.auto ∨ (merged c).find? (fun p => isPre pref.code p.1) = none) →
      (merged c).find? (fun p => isPre ['e', 'n'] p.1) = none →
      (merged c).find? (fun p => isPre ['h', 'i'] p.1) = none →
      (merged c).head? = some t →
      selectTrack c pref = .ok t) ∧
    (selectTrack ⟨[['f', 'r']], []⟩ Lang.auto = .ok (['f', 'r'], false)) ∧
    (∀ (c : Catalog) (pref : Lang),
      (∃ e, selectTrack c pref = .error e) ↔ c.manual = [] ∧ c.gen = []) ∧
    (∀ (c : Catalog), ∀ p ∈ merged c, p.2 = c.gen.contains p.1) := by
  refine ⟨?_, ?_, ?_, by decide, ?_, fun c => merged_snd c⟩
  · intro c pref t hskip hen
    simp only [selectTrack]
    rcases hskip with rfl | hnone
    · rw [if_neg (by simp), hen]
    · by_cases hpa : pref = Lang.auto
      · rw [if_neg (by simp [hpa]), hen]
      · rw [if_pos hpa, hnone, hen]
  · intro c pref t hskip hen hhi
    simp only [selectTrack]
    rcases hskip with rfl | hnone
    · rw [if_neg (by simp), hen, hhi]
    · by_cases hpa : pref = Lang.auto
      · rw [if_neg (by simp [hpa]), hen, hhi]
      · rw [if_pos hpa, hnone, hen, hhi]
  · intro c pref t hskip hen hhi hhead
    simp only [selectTrack]
    rcases hskip with rfl | hnone
    · rw [if_neg (by simp), hen, hhi, hhead]
    · by_cases hpa : pref = Lang.auto
      · rw [if_neg (by simp [hpa]), hen, hhi, hhead]
      · rw [if_pos hpa, hnone, hen, hhi, hhead]
  · intro c pref
    constructor
    · rintro ⟨e, he⟩
      rcases hm : merged c with _ | ⟨x, xs⟩
      · exact (merged_nil_iff c).mp hm
      · exfalso
        simp only [selectTrack] at he
        split at he
        · cases he
        · split at he
          · cases he
          · split at he
            · cases he
            · split at he
              · cases he
              · rename_i hnone
                rw [hm] at hnone
                cases hnone
    · rintro ⟨h1, h2⟩
      have hm : merged c = [] := (merged_nil_iff c).mpr ⟨h1, h2⟩
      refine ⟨.noTranscript, ?_⟩
      simp only [selectTrack, hm]
      split
      · rename_i heq
        split at heq <;> cases heq
      · rfl

/-- Claim C4 (witness): the amended theorem's English-fallback clause at a
catalog with a manual Spanish track and an auto-generated English track and
preference `AUTO`. -/
theorem claim4_amended_witness :
    selectTrack ⟨[['e', 's']], [['e', 'n']]⟩ Lang.auto = .ok (['e', 'n'], true) :=
  claim4_amended.1 ⟨[['e', 's']], [['e', 'n']]⟩ Lang.auto (['e', 'n'], true)
    (Or.inl rfl) (by decide)

/-! ## Claim C1 -/

theorem tryURL_const (b : Except TErr TResult) : tryURL b = (none, 0, [1, 2], 3) := rfl

theorem handlerStep_fail (body : List Char → Except TErr TResult)
    (acc : HandlerTrace) (url : List Char) :
    handlerStep body acc url =
      { acc with failed := acc.failed ++ [url], sleeps := acc.sleeps ++ [1, 2],
                 attempts := acc.attempts + 3 } := by
  unfold handlerStep
  rw [tryURL_const]
  simp

theorem foldl_fail (body : List Char → Except TErr TResult) :
    ∀ (urls : List (List Char)) (acc : HandlerTrace),
    urls.foldl (handlerStep body) acc =
      { acc with failed := acc.failed ++ urls,
                 sleeps := acc.sleeps ++ (urls.map (fun _ => ([1, 2] : List Nat))).flatten,
                 attempts := acc.attempts + 3 * urls.length } := by
  intro urls
  induction urls with
  | nil => intro acc; simp
  | cons u us ih =>
    intro acc
    rw [List.foldl_cons, handlerStep_fail, ih]
    simp [List.append_assoc]
    omega

/-- Claim C1 (counterexample): at the concrete URL list
`["https://www.youtube.com/watch?v=dQw4w9WgXcQ"]` the handler ends with
HTTP status 500, not the claimed 400: the `HTTPException(400)` raised
inside the endpoint's own `try` is an `Exception`, so the blanket
`except Exception` at lines 164-166 of `main.py` catches it and re-raises
it as a 500. -/
theorem claim1_counterexample :
    (fetch_transcripts (fun _ => .error .noTranscript)
        ["https://www.youtube.com/watch?v=dQw4w9WgXcQ".toList]).status = 500 ∧
    (fetch_transcripts (fun _ => .error .noTranscript)
        ["https://www.youtube.com/watch?v=dQw4w9WgXcQ".toList]).status ≠ 400 := by
  constructor
  · decide
  · decide

/-- Claim C1 (amended): every call the handler makes to `get_transcript`
passes the unexpected keyword `max_retries`, so it raises `TypeError`
before the callee body (and any provider interaction) runs — whatever
`get_transcript` would have returned; every URL lands in the failed list
after three attempts (with backoff sleeps of 1 and 2 seconds); and the
handler never returns a `TranscriptResponse`: it constructs an
`HTTPException(400)` which its own blanket `except Exception` converts into
an HTTP 500 error. -/
theorem claim1_amended (body : List Char → Except TErr TResult)
    (urls : List (List Char)) :
    (fetch_transcripts body urls).succeeded = [] ∧
    (fetch_transcripts body urls).failed = urls ∧
    (fetch_transcripts body urls).bodyCalls = 0 ∧
    (fetch_transcripts body urls).attempts = 3 * urls.length ∧
    (fetch_transcripts body urls).sleeps
      = (urls.map (fun _ => ([1, 2] : List Nat))).flatten ∧
    (fetch_transcripts body urls).status = 500 := by
  unfold fetch_transcripts
  rw [foldl_fail]
  refine ⟨rfl, by simp, rfl, by simp, by simp, rfl⟩

/-! ## Helper lemmas: Python strip -/

theorem dropWhile_head_false (p : Char → Bool) :
    ∀ (l : List Char) (c : Char) (rest : List Char),
    l.dropWhile p = c :: rest → p c = false := by
  intro l
  induction l with
  | nil => intro c rest h; cases h
  | cons a as ih =>
    intro c rest h
    rw [List.dropWhile_cons] at h
    by_cases hp : p a = true
    · rw [if_pos hp] at h
      exact ih c rest h
    · rw [if_neg hp] at h
      cases h
      exact Bool.not_eq_true _ |>.mp hp

theorem stripL_of_head (c : Char) (cs : List Char) (h : isPySpace c = false) :
    stripL (c :: cs) = c :: cs := by
  simp [stripL, List.dropWhile_cons, h]

theorem stripR_append_nl (l : List Char) :
    stripR (l ++ ['\n']) = stripR l := by
  have h : isPySpace '\n' = true := by decide
  simp [stripR, List.reverse_append, List.dropWhile_cons, h]

theorem stripR_of_last (l : List Char) (c : Char) (hl : l.getLast? = some c)
    (hc : isPySpace c = false) : stripR l = l := by
  have hrev : l.reverse.head? = some c := by
    rw [← List.getLast?_reverse]
    simpa using hl
  rcases hr : l.reverse with _ | ⟨a, as⟩
  · simp [hr] at hrev
  · rw [hr] at hrev
    simp at hrev
    subst hrev
    have : stripR l = (List.dropWhile isPySpace (a :: as)).reverse := by
      rw [stripR, hr]
    rw [this, List.dropWhile_cons, if_neg (by simp [hc])]
    rw [← hr, List.reverse_reverse]

theorem pyStrip_last_not_space (l : List Char) (c : Char)
    (h : (pyStrip l).getLast? = some c) : isPySpace c = false := by
  have h2 : (stripR (stripL l)).getLast? = some c := h
  rw [stripR] at h2
  rw [List.getLast?_reverse] at h2
  rcases hd : (stripL l).reverse.dropWhile isPySpace with _ | ⟨a, as⟩
  · rw [hd] at h2; cases h2
  · rw [hd] at h2
    simp at h2
    subst h2
    exact dropWhile_head_false isPySpace _ _ _ hd

/-! ## Helper lemmas: line joining -/

theorem joinNL_cons_eq : ∀ (ls : List (List Char)) (l : List Char),
    joinNL (l :: ls) = interLines (l :: ls) ++ ['\n'] := by
  intro ls
  induction ls with
  | nil => intro l; simp [joinNL, interLines]
  | cons r rs ih =>
    intro l
    have h1 : joinNL (l :: r :: rs) = (l ++ ['\n']) ++ joinNL (r :: rs) := by
      simp [joinNL]
    rw [h1, ih r]
    show _ = (l ++ '\n' :: interLines (r :: rs)) ++ ['\n']
    simp

theorem interLines_ne_nil (c : Char) (cs : List Char) :
    ∀ ls, interLines ((c :: cs) :: ls) ≠ [] := by
  intro ls
  cases ls with
  | nil => simp [interLines]
  | cons r rs => simp [interLines]

theorem interLines_cons_head (c : Char) (cs : List Char) :
    ∀ ls, ∃ t, interLines ((c :: cs) :: ls) = c :: t := by
  intro ls
  cases ls with
  | nil => exact ⟨cs, rfl⟩
  | cons r rs => exact ⟨cs ++ '\n' :: interLines (r :: rs), rfl⟩

theorem interLines_getLast? :
    ∀ (ls : List (List Char)) (lst : List Char), ls.getLast? = some lst →
    (∀ l ∈ ls, l ≠ []) → (interLines ls).getLast? = lst.getLast? := by
  intro ls
  induction ls with
  | nil => intro lst h _; cases h
  | cons l rs ih =>
    intro lst h hne
    cases rs with
    | nil =>
      simp at h
      subst h
      rfl
    | cons r rs2 =>
      rw [List.getLast?_cons_cons] at h
      have hr : r ≠ [] := hne r (by simp)
      have hrest : (interLines (r :: rs2)).getLast? = lst.getLast? := by
        refine ih lst h ?_
        intro x hx
        exact hne x (by simp [hx])
      show (l ++ '\n' :: interLines (r :: rs2)).getLast? = lst.getLast?
      rw [List.getLast?_append_of_ne_nil l (by simp)]
      have hni : interLines (r :: rs2) ≠ [] := by
        rcases hrc : r with _ | ⟨c, cs⟩
        · exact absurd hrc hr
        · exact interLines_ne_nil c cs rs2
      rcases hil : interLines (r :: rs2) with _ | ⟨d, ds⟩
      · exact absurd hil hni
      · rw [List.getLast?_cons_cons, ← hil, hrest]

theorem pyStrip_joinNL (ls : List (List Char))
    (hhead : ∀ l ∈ ls, ∃ c cs, l = c :: cs ∧ isPySpace c = false)
    (hlast : ∀ l ∈ ls, ∀ c, l.getLast? = some c → isPySpace c = false) :
    pyStrip (joinNL ls) = interLines ls := by
  cases ls with
  | nil => rfl
  | cons l rs =>
    rw [joinNL_cons_eq]
    obtain ⟨c, cs, rfl, hc⟩ := hhead l (by simp)
    obtain ⟨t, ht⟩ := interLines_cons_head c cs rs
    rw [pyStrip, ht, List.cons_append, stripL_of_head c _ hc, ← List.cons_append, ← ht]
    rw [stripR_append_nl]
    have hne2 : ((c :: cs) :: rs).getLast? = some (((c :: cs) :: rs).getLast (by simp)) :=
      List.getLast?_eq_getLast _ (by simp)
    set lst := ((c :: cs) :: rs).getLast (by simp) with hlstdef
    have hmem : lst ∈ (c :: cs) :: rs := List.getLast_mem _
    have hlne : lst ≠ [] := by
      intro hnil
      obtain ⟨d, ds, hl, _⟩ := hhead lst hmem
      rw [hnil] at hl
      cases hl
    have hlast2 : (interLines ((c :: cs) :: rs)).getLast? = lst.getLast? := by
      refine interLines_getLast? _ lst hne2 ?_
      intro x hx
      obtain ⟨d, ds, hl, _⟩ := hhead x hx
      rw [hl]
      simp
    rcases hlc : lst.getLast? with _ | d
    · rw [List.getLast?_eq_none_iff] at hlc
      exact absurd hlc hlne
    · have hd : isPySpace d = false := hlast lst hmem d hlc
      rw [hlc] at hlast2
      exact stripR_of_last _ d hlast2 hd

/-! ## Helper lemmas: the assembler on entry triples -/

theorem mapE_render (es : List Entry) :
    mapE renderItem (es.map entryDict) = .ok (es.map (fun e => pieceOf e.1 e.2.2)) := by
  induction es with
  | nil => rfl
  | cons e es ih =>
    have h1 : renderItem (entryDict e) = .ok (pieceOf e.1 e.2.2) := rfl
    simp only [List.map_cons, mapE, h1, ih]
    rfl

theorem pieceOf_keep (e : Entry) (h : keepEntry e = true) :
    pieceOf e.1 e.2.2 = lineOf e ++ ['\n'] := by
  have h2 : (pyStrip e.2.2).isEmpty = false := by
    simpa [keepEntry] using h
  simp only [pieceOf, lineOf, h2]
  simp

theorem pieceOf_drop (e : Entry) (h : keepEntry e = false) :
    pieceOf e.1 e.2.2 = [] := by
  have h2 : (pyStrip e.2.2).isEmpty = true := by
    simpa [keepEntry] using h
  simp only [pieceOf, h2]
  simp

theorem pieces_flatten (es : List Entry) :
    (es.map (fun e => pieceOf e.1 e.2.2)).flatten = joinNL (renderedLines es) := by
  induction es with
  | nil => rfl
  | cons e es ih =>
    rcases hk : keepEntry e with _ | _
    · have : renderedLines (e :: es) = renderedLines es := by
        simp [renderedLines, List.filter_cons, hk]
      rw [List.map_cons, List.flatten_cons, pieceOf_drop e hk, this, ih]
      rfl
    · have : renderedLines (e :: es) = lineOf e :: renderedLines es := by
        simp [renderedLines, List.filter_cons, hk]
      rw [List.map_cons, List.flatten_cons, pieceOf_keep e hk, this, ih]
      simp [joinNL]

theorem stripped_ne_nil_of_keep (e : Entry) (h : keepEntry e = true) :
    pyStrip e.2.2 ≠ [] := by
  intro hnil
  rw [keepEntry, hnil] at h
  simp at h

theorem lineOf_head (e : Entry) :
    ∃ c cs, lineOf e = c :: cs ∧ isPySpace c = false :=
  ⟨'[', format_duration e.1 ++ ']' :: ' ' :: pyStrip e.2.2, rfl, by decide⟩

theorem lineOf_last (e : Entry) (h : keepEntry e = true) :
    ∀ c, (lineOf e).getLast? = some c → isPySpace c = false := by
  intro c hc
  have htx : pyStrip e.2.2 ≠ [] := stripped_ne_nil_of_keep e h
  have h1 : (lineOf e).getLast? = (pyStrip e.2.2).getLast? := by
    show (['['] ++ (format_duration e.1 ++ ']' :: ' ' :: pyStrip e.2.2)).getLast? = _
    rw [List.getLast?_append_of_ne_nil _ (by simp)]
    rw [List.getLast?_append_of_ne_nil _ (by simp)]
    rcases htx2 : pyStrip e.2.2 with _ | ⟨d, ds⟩
    · exact absurd htx2 htx
    · rw [List.getLast?_cons_cons, List.getLast?_cons_cons]
  rw [h1] at hc
  exact pyStrip_last_not_space _ c hc

theorem calcDuration_map (es : List Entry) :
    calcDuration (es.map entryDict) = .ok (durSpec es) := by
  rw [calcDuration, List.getLast?_map]
  rcases hgl : es.getLast? with _ | e
  · simp [durSpec, hgl]
  · simp [durSpec, hgl, entryDict]

theorem assembleText_map (es : List Entry) :
    assembleText (es.map entryDict) = .ok (interLines (renderedLines es)) := by
  rw [assembleText, mapE_render]
  show Except.ok (pyStrip (es.map (fun e => pieceOf e.1 e.2.2)).flatten) = _
  rw [pieces_flatten]
  rw [pyStrip_joinNL]
  · intro l hl
    have hl2 := (by simpa [renderedLines] using hl :
      ∃ e, (e ∈ es ∧ keepEntry e = true) ∧ lineOf e = l)
    obtain ⟨e, ⟨_, _⟩, rfl⟩ := hl2
    exact lineOf_head e
  · intro l hl
    have hl2 := (by simpa [renderedLines] using hl :
      ∃ e, (e ∈ es ∧ keepEntry e = true) ∧ lineOf e = l)
    obtain ⟨e, ⟨_, hk⟩, rfl⟩ := hl2
    exact lineOf_last e hk

/-! ## Claim C8 -/

theorem normalizeItems_attr_eq_dict (ts : List Entry) :
    normalizeItems (.iterable (ts.map entryAttr)) = ts.map entryDict := by
  induction ts with
  | nil => rfl
  | cons e es ih =>
    simp only [List.map_cons, normalizeItems, List.filterMap_cons]
    simpa [entryAttr, entryDict, normalizeItems] using ih

/-- Claim C8 (confirmed): a record-shaped (dict) payload and an
attribute-shaped payload carrying identical `start`/`duration`/`text`
values normalize to identical ordered entry sequences, so the assembled
text and the derived duration agree as well. -/
theorem claim8_normalizer_equiv (ts : List Entry) :
    normalizeItems (.plainList (ts.map entryDict))
      = normalizeItems (.iterable (ts.map entryAttr)) ∧
    normalizePayload (.plainList (ts.map entryDict))
      = normalizePayload (.iterable (ts.map entryAttr)) ∧
    assembleText (normalizeItems (.plainList (ts.map entryDict)))
      = assembleText (normalizeItems (.iterable (ts.map entryAttr))) ∧
    calcDuration (normalizeItems (.plainList (ts.map entryDict)))
      = calcDuration (normalizeItems (.iterable (ts.map entryAttr))) := by
  have h := normalizeItems_attr_eq_dict ts
  have h0 : normalizeItems (.plainList (ts.map entryDict)) = ts.map entryDict := rfl
  refine ⟨by rw [h0, h], ?_, by rw [h0, h], by rw [h0, h]⟩
  rw [normalizePayload, normalizePayload, h0, h]

/-! ## Claim C9 -/

/-- Claim C9 (confirmed): the assembler renders one line per entry whose
trimmed text is non-empty, in entry order, each line a `[H:MM:SS]`
timestamp (truncated to whole seconds) followed by the trimmed text, with
trailing whitespace trimmed from the whole string; the derived duration is
`0` for the empty sequence and otherwise the last entry's
`start + duration`; in particular `[(0,2,"hello"),(5,3,"world")]` assembles
to the two lines `[0:00:00] hello` and `[0:00:05] world` with duration 8. -/
theorem claim9_assembler :
    (∀ es : List Entry,
      assembleText (es.map entryDict) = .ok (interLines (renderedLines es)) ∧
      calcDuration (es.map entryDict) = .ok (durSpec es)) ∧
    assembleText ([((0 : Rat), (2 : Rat), "hello".toList),
        ((5 : Rat), (3 : Rat), "world".toList)].map entryDict)
      = .ok "[0:00:00] hello\n[0:00:05] world".toList ∧
    calcDuration ([((0 : Rat), (2 : Rat), "hello".toList),
        ((5 : Rat), (3 : Rat), "world".toList)].map entryDict)
      = .ok 8 := by
  refine ⟨fun es => ⟨assembleText_map es, calcDuration_map es⟩, by decide, ?_⟩
  rw [calcDuration_map]
  show Except.ok (5 + 3 : Rat) = Except.ok 8
  norm_num

/-! ## Helper lemmas: the fetch strategy retrier -/

theorem runRound_all_trans :
    ∀ (l : List (Except FetchErr Unit)) (e : Nat),
    (∀ x ∈ l, ∃ tg, x = .error (.transient tg)) →
    l.getLast? = some (.error (.transient e)) →
    runRound l = (some (.error (.transient e)), l.length) := by
  intro l
  induction l with
  | nil => intro e _ h; cases h
  | cons a l2 ih =>
    intro e hall hlast
    obtain ⟨tg, rfl⟩ := hall a (by simp)
    cases l2 with
    | nil =>
      simp at hlast
      subst hlast
      rfl
    | cons b l3 =>
      rw [List.getLast?_cons_cons] at hlast
      have hrec := ih e (fun x hx => hall x (by simp [hx])) hlast
      show runRound (Except.error (FetchErr.transient tg) :: b :: l3) = _
      rw [runRound]
      simp only [FetchErr.isPermanent, hrec]
      simp [List.length_cons]

theorem runRound_permanent :
    ∀ (l : List (Except FetchErr Unit)) (p : Nat) (rest : List (Except FetchErr Unit)),
    (∀ x ∈ l, ∃ tg, x = .error (.transient tg)) →
    runRound (l ++ .error (.permanent p) :: rest)
      = (some (.error (.permanent p)), l.length + 1) := by
  intro l
  induction l with
  | nil =>
    intro p rest _
    rfl
  | cons a l2 ih =>
    intro p rest hall
    obtain ⟨tg, rfl⟩ := hall a (by simp)
    have hrec := ih p rest (fun x hx => hall x (by simp [hx]))
    rw [List.cons_append, runRound]
    simp only [FetchErr.isPermanent, hrec]
    simp [List.length_cons]

theorem range_getLast? (S : Nat) (hS : 0 < S) :
    (List.range S).getLast? = some (S - 1) := by
  rcases S with _ | k
  · omega
  · rw [List.range_succ]
    simp

theorem runRound_range_trans (S : Nat) (hS : 0 < S) (f : Nat → Nat) :
    runRound ((List.range S).map
        (fun s => Except.error (α := Unit) (FetchErr.transient (f s))))
      = (some (.error (.transient (f (S - 1)))), S) := by
  have h := runRound_all_trans
    ((List.range S).map (fun s => Except.error (α := Unit) (FetchErr.transient (f s))))
    (f (S - 1))
    (by intro x hx
        obtain ⟨s, _, rfl⟩ := List.mem_map.mp hx
        exact ⟨f s, rfl⟩)
    (by rw [List.getLast?_map, range_getLast? S hS]; rfl)
  simpa using h

theorem pow_sleeps_cons (r₀ k : Nat) :
    (2 : Nat) ^ r₀ :: (List.range k).map (fun i => 2 ^ (r₀ + 1 + i))
      = (List.range (k + 1)).map (fun i => 2 ^ (r₀ + i)) := by
  rw [List.range_succ_eq_map, List.map_cons, List.map_map]
  refine congrArg₂ List.cons (by rw [Nat.add_zero]) ?_
  refine List.map_congr_left ?_
  intro a _
  show 2 ^ (r₀ + 1 + a) = 2 ^ (r₀ + (a + 1))
  have : r₀ + 1 + a = r₀ + (a + 1) := by omega
  rw [this]

theorem retrierGo_all_transient (outcome : Nat → List (Except FetchErr Unit))
    (S : Nat) (errf : Nat → Nat → Nat) (hS : 0 < S)
    (hout : ∀ r, outcome r
      = (List.range S).map (fun s => .error (.transient (errf r s)))) :
    ∀ (k r₀ : Nat), retrierGo outcome r₀ (k + 1) =
      ⟨.error (.transient (errf (r₀ + k) (S - 1))), (k + 1) * S,
       (List.range k).map (fun i => 2 ^ (r₀ + i))⟩ := by
  have hround : ∀ r, runRound (outcome r)
      = (some (.error (.transient (errf r (S - 1)))), S) := by
    intro r
    rw [hout r]
    exact runRound_range_trans S hS (errf r)
  intro k
  induction k with
  | zero =>
    intro r₀
    rw [retrierGo, hround r₀]
    simp
  | succ k ih =>
    intro r₀
    rw [retrierGo, hround r₀]
    simp only [FetchErr.isPermanent]
    rw [if_neg (by simp)]
    rw [ih (r₀ + 1)]
    have h1 : r₀ + 1 + k = r₀ + (k + 1) := by omega
    have h2 : S + (k + 1) * S = (k + 1 + 1) * S := by ring
    have h3 : (2 : Nat) ^ r₀ :: (List.range k).map (fun i => 2 ^ (r₀ + 1 + i))
        = (List.range (k + 1)).map (fun i => 2 ^ (r₀ + i)) := pow_sleeps_cons r₀ k
    rw [h1, h2, h3]

theorem retrierGo_permanent (outcome : Nat → List (Except FetchErr Unit))
    (S sN : Nat) (errf : Nat → Nat → Nat) (ptag : Nat)
    (rest : List (Except FetchErr Unit)) (hS : 0 < S) :
    ∀ (j k r₀ : Nat), j ≤ k →
    (∀ i, i < j → outcome (r₀ + i)
      = (List.range S).map (fun x => .error (.transient (errf (r₀ + i) x)))) →
    (outcome (r₀ + j)
      = (List.range sN).map (fun x => .error (.transient (errf (r₀ + j) x)))
        ++ .error (.permanent ptag) :: rest) →
    retrierGo outcome r₀ (k + 1) =
      ⟨.error (.permanent ptag), j * S + sN + 1,
       (List.range j).map (fun i => 2 ^ (r₀ + i))⟩ := by
  intro j
  induction j with
  | zero =>
    intro k r₀ _ _ hperm
    rw [Nat.add_zero] at hperm
    have hrp := runRound_permanent
      ((List.range sN).map (fun x => Except.error (FetchErr.transient (errf r₀ x))))
      ptag rest
      (by intro x hx
          obtain ⟨s, _, rfl⟩ := List.mem_map.mp hx
          exact ⟨errf r₀ s, rfl⟩)
    rw [retrierGo, hperm, hrp]
    simp [FetchErr.isPermanent]
  | succ j ih =>
    intro k r₀ hjk htrans hperm
    rcases k with _ | k2
    · omega
    have h0 : outcome r₀ = (List.range S).map
        (fun x => .error (.transient (errf r₀ x))) := by
      have := htrans 0 (by omega)
      simpa using this
    rw [retrierGo, h0, runRound_range_trans S hS (errf r₀)]
    simp only [FetchErr.isPermanent]
    rw [if_neg (by simp)]
    have hrec := ih k2 (r₀ + 1) (by omega)
      (by intro i hi
          have := htrans (i + 1) (by omega)
          have harg : r₀ + (i + 1) = r₀ + 1 + i := by omega
          rw [harg] at this
          exact this)
      (by have := hperm
          have harg : r₀ + (j + 1) = r₀ + 1 + j := by omega
          rw [harg] at this
          exact this)
    rw [hrec]
    have h2 : S + (j * S + sN + 1) = (j + 1) * S + sN + 1 := by ring
    rw [h2, pow_sleeps_cons]

/-! ## Claim C5 -/

/-- Claim C5 (confirmed, against the spec-modelled retrier): when every
strategy fails transiently in every round, the number of provider calls is
exactly `rounds × strategies`, the propagated error is the last strategy's
error from the last round, nothing is propagated before all rounds and
strategies are exhausted, and the backoff sleeps between wholly failed
rounds are `2 ^ 0, …, 2 ^ (rounds - 2)` seconds. -/
theorem claim5_fetch_retrier (R S : Nat) (errf : Nat → Nat → Nat)
    (hR : 0 < R) (hS : 0 < S) :
    (fetchWithRetry (α := Unit) R (fun r => (List.range S).map
        (fun s => .error (.transient (errf r s))))).result
      = .error (.transient (errf (R - 1) (S - 1))) ∧
    (fetchWithRetry (α := Unit) R (fun r => (List.range S).map
        (fun s => .error (.transient (errf r s))))).calls = R * S ∧
    (fetchWithRetry (α := Unit) R (fun r => (List.range S).map
        (fun s => .error (.transient (errf r s))))).sleeps
      = (List.range (R - 1)).map (fun i => 2 ^ i) := by
  obtain ⟨k, rfl⟩ : ∃ k, R = k + 1 := ⟨R - 1, by omega⟩
  have h := retrierGo_all_transient _ S errf hS (fun r => rfl) k 0
  rw [fetchWithRetry, h]
  refine ⟨by simp, rfl, ?_⟩
  simp

/-- Claim C5 (witness): 3 rounds of 4 always-failing strategies make 12
provider calls, propagate the error of strategy 3 of round 2 (tag `23`),
and sleep 1 then 2 seconds between rounds. -/
theorem claim5_fetch_retrier_witness :
    (fetchWithRetry (α := Unit) 3 (fun r => (List.range 4).map
        (fun s => .error (.transient (10 * r + s))))).result
      = .error (.transient 23) ∧
    (fetchWithRetry (α := Unit) 3 (fun r => (List.range 4).map
        (fun s => .error (.transient (10 * r + s))))).calls = 12 ∧
    (fetchWithRetry (α := Unit) 3 (fun r => (List.range 4).map
        (fun s => .error (.transient (10 * r + s))))).sleeps = [1, 2] :=
  claim5_fetch_retrier 3 4 (fun r s => 10 * r + s) (by omega) (by omega)

/-! ## Claim C6 -/

/-- Claim C6 (confirmed, against the spec-modelled retrier): when the
failure hit in round `r` (after `sN` transient strategy failures in that
round) is a permanent condition, it is surfaced immediately: the calls stop
at `r * S + sN + 1`, only the `r` backoff sleeps already spent before that
round occurred, and the permanent error itself is propagated — no
remaining strategies, rounds or sleeps are consumed. -/
theorem claim6_permanent_immediate (R S sN r ptag : Nat)
    (errf : Nat → Nat → Nat) (rest : List (Except FetchErr Unit))
    (outcome : Nat → List (Except FetchErr Unit))
    (hrR : r < R) (hS : 0 < S)
    (htrans : ∀ i, i < r → outcome i
      = (List.range S).map (fun x => .error (.transient (errf i x))))
    (hperm : outcome r
      = (List.range sN).map (fun x => .error (.transient (errf r x)))
        ++ .error (.permanent ptag) :: rest) :
    (fetchWithRetry R outcome).result = .error (.permanent ptag) ∧
    (fetchWithRetry R outcome).calls = r * S + sN + 1 ∧
    (fetchWithRetry R outcome).sleeps = (List.range r).map (fun i => 2 ^ i) ∧
    (fetchWithRetry R outcome).sleeps.length = r := by
  obtain ⟨k, rfl⟩ : ∃ k, R = k + 1 := ⟨R - 1, by omega⟩
  have h := retrierGo_permanent outcome S sN errf ptag rest hS r k 0 (by omega)
    (by intro i hi
        have := htrans i hi
        simpa using this)
    (by simpa using hperm)
  rw [fetchWithRetry, h]
  refine ⟨rfl, rfl, by simp, by simp⟩

/-- Claim C6 (witness): with 3 rounds of 2 strategies, a permanent error at
the second strategy of round 1 is propagated after 4 calls and a single
1-second sleep, consuming neither round 2 nor further sleeps. -/
theorem claim6_permanent_immediate_witness :
    (fetchWithRetry 3 (fun r =>
      if r = 1 then
        (List.range 1).map (fun x => Except.error (α := Unit)
          (FetchErr.transient (10 * r + x))) ++ .error (.permanent 7) :: []
      else
        (List.range 2).map (fun x => .error (.transient (10 * r + x))))).result
      = .error (.permanent 7) ∧
    (fetchWithRetry 3 (fun r =>
      if r = 1 then
        (List.range 1).map (fun x => Except.error (α := Unit)
          (FetchErr.transient (10 * r + x))) ++ .error (.permanent 7) :: []
      else
        (List.range 2).map (fun x => .error (.transient (10 * r + x))))).calls = 4 ∧
    (fetchWithRetry 3 (fun r =>
      if r = 1 then
        (List.range 1).map (fun x => Except.error (α := Unit)
          (FetchErr.transient (10 * r + x))) ++ .error (.permanent 7) :: []
      else
        (List.range 2).map (fun x => .error (.transient (10 * r + x))))).sleeps
      = [1] := by
  have h := claim6_permanent_immediate 3 2 1 1 7 (fun r s => 10 * r + s) []
    (fun r =>
      if r = 1 then
        (List.range 1).map (fun x => Except.error (α := Unit)
          (FetchErr.transient (10 * r + x))) ++ .error (.permanent 7) :: []
      else
        (List.range 2).map (fun x => .error (.transient (10 * r + x))))
    (by omega) (by omega)
    (by intro i hi
        have : i = 0 := by omega
        subst this
        rfl)
    (by rfl)
  exact ⟨h.1, h.2.1, h.2.2.1⟩

/-! ## Claim C7 -/

/-- Claim C7 (confirmed): when the preference is explicit and differs from
the selected track's language, every failure in the translation path — the
`translation_languages` access, a preference outside the advertised set,
the translate-and-fetch call, the rendering of the translated payload — is
caught locally and the original result (which carries `translated = false`
and the original language) is returned unchanged; and when every step
succeeds, the result's `language` is the preferred code, `translated` is
true and `original_language` is the track's original language. -/
theorem claim7_translation (o : TransOracle) (pref : Lang) (lang : List Char)
    (g : Bool) (t : List Char) (d : Rat)
    (hp : pref ≠ Lang.auto) (hl : lang ≠ pref.code) :
    (o.translationLanguages = .error () →
      maybeTranslate o pref (buildResult lang g t d) = buildResult lang g t d) ∧
    (∀ tls, o.translationLanguages = .ok tls → pref.code ∉ tls →
      maybeTranslate o pref (buildResult lang g t d) = buildResult lang g t d) ∧
    (∀ tls, o.translationLanguages = .ok tls → pref.code ∈ tls →
      o.translateFetch pref.code = .error () →
      maybeTranslate o pref (buildResult lang g t d) = buildResult lang g t d) ∧
    (∀ tls pl, o.translationLanguages = .ok tls → pref.code ∈ tls →
      o.translateFetch pref.code = .ok pl → translatedTextOf pl = .error () →
      maybeTranslate o pref (buildResult lang g t d) = buildResult lang g t d) ∧
    ((buildResult lang g t d).translated = false ∧
      (buildResult lang g t d).language = lang) ∧
    (∀ tls pl txt, o.translationLanguages = .ok tls → pref.code ∈ tls →
      o.translateFetch pref.code = .ok pl → translatedTextOf pl = .ok txt →
      (maybeTranslate o pref (buildResult lang g t d)).language = pref.code ∧
      (maybeTranslate o pref (buildResult lang g t d)).translated = true ∧
      (maybeTranslate o pref (buildResult lang g t d)).original_language = lang ∧
      (maybeTranslate o pref (buildResult lang g t d)).text = txt) := by
  refine ⟨?_, ?_, ?_, ?_, ⟨rfl, rfl⟩, ?_⟩
  · intro h
    simp [maybeTranslate, buildResult, hp, hl, h]
  · intro tls h hmem
    simp [maybeTranslate, buildResult, hp, hl, h, hmem]
  · intro tls h hmem hfetch
    simp [maybeTranslate, buildResult, hp, hl, h, hmem, hfetch]
  · intro tls pl h hmem hfetch htext
    simp [maybeTranslate, buildResult, hp, hl, h, hmem, hfetch, htext]
  · intro tls pl txt h hmem hfetch htext
    simp [maybeTranslate, buildResult, hp, hl, h, hmem, hfetch, htext]

/-- Claim C7 (witness): the end-to-end Spanish-to-English scenario — a
Spanish result, preference `en`, `en` advertised, the translated payload
rendering to `[0:00:00] hello` — yields `language = en`,
`translated = true`, `original_language = es`; and with an oracle whose
`translation_languages` access raises, the original result is returned. -/
theorem claim7_translation_witness :
    (maybeTranslate
        ⟨.ok [['e', 'n']],
         fun _ => .ok (.plainList [.dict (some 0) (some 1)
           (some "hello".toList)])⟩
        Lang.en (buildResult ['e', 's'] false "[0:00:00] hola".toList 1)).language
      = ['e', 'n'] ∧
    (maybeTranslate
        ⟨.ok [['e', 'n']],
         fun _ => .ok (.plainList [.dict (some 0) (some 1)
           (some "hello".toList)])⟩
        Lang.en (buildResult ['e', 's'] false "[0:00:00] hola".toList 1)).translated
      = true ∧
    (maybeTranslate
        ⟨.ok [['e', 'n']],
         fun _ => .ok (.plainList [.dict (some 0) (some 1)
           (some "hello".toList)])⟩
        Lang.en (buildResult ['e', 's'] false "[0:00:00] hola".toList 1)).original_language
      = ['e', 's'] ∧
    (maybeTranslate ⟨.error (), fun _ => .error ()⟩
        Lang.en (buildResult ['e', 's'] false "[0:00:00] hola".toList 1))
      = buildResult ['e', 's'] false "[0:00:00] hola".toList 1 := by
  have h := (claim7_translation
    ⟨.ok [['e', 'n']],
     fun _ => .ok (.plainList [.dict (some 0) (some 1) (some "hello".toList)])⟩
    Lang.en ['e', 's'] false "[0:00:00] hola".toList 1
    (by decide) (by decide)).2.2.2.2.2
    [['e', 'n']] (.plainList [.dict (some 0) (some 1) (some "hello".toList)])
    "[0:00:00] hello".toList rfl (by decide) rfl (by decide)
  have h2 := (claim7_translation ⟨.error (), fun _ => .error ()⟩
    Lang.en ['e', 's'] false "[0:00:00] hola".toList 1
    (by decide) (by decide)).1 rfl
  exact ⟨h.1, h.2.1, h.2.2.1, h2⟩

/-! ## Claim C10 -/

/-- Claim C10 (confirmed): the translation step never changes `duration` or
`is_generated` — they keep the values computed from the original track — and
whenever no translation occurred (`translated = false`) the returned
record's `original_language` equals its `language`; the freshly built result
always carries `original_language = language` (never absent). -/
theorem claim10_frame (o : TransOracle) (pref : Lang) (lang : List Char)
    (g : Bool) (t : List Char) (d : Rat) :
    (maybeTranslate o pref (buildResult lang g t d)).duration = d ∧
    (maybeTranslate o pref (buildResult lang g t d)).is_generated = g ∧
    ((maybeTranslate o pref (buildResult lang g t d)).translated = false →
      (maybeTranslate o pref (buildResult lang g t d)).original_language
        = (maybeTranslate o pref (buildResult lang g t d)).language) ∧
    (buildResult lang g t d).original_language = (buildResult lang g t d).language := by
  have halt : maybeTranslate o pref (buildResult lang g t d) = buildResult lang g t d ∨
      ∃ txt, maybeTranslate o pref (buildResult lang g t d)
        = { text := txt, language := pref.code, duration := d, translated := true,
            original_language := lang, is_generated := g } := by
    rw [maybeTranslate]
    by_cases hc : (pref ≠ Lang.auto ∧ (buildResult lang g t d).language ≠ pref.code)
    · rw [if_pos hc]
      rcases o.translationLanguages with _ | tls
      · exact Or.inl rfl
      · dsimp only
        by_cases hmem : pref.code ∈ tls
        · rw [if_pos hmem]
          rcases o.translateFetch pref.code with _ | pl
          · exact Or.inl rfl
          · dsimp only
            rcases translatedTextOf pl with _ | txt
            · exact Or.inl rfl
            · exact Or.inr ⟨txt, rfl⟩
        · rw [if_neg hmem]
          exact Or.inl rfl
    · rw [if_neg hc]
      exact Or.inl rfl
  rcases halt with h | ⟨txt, h⟩
  · rw [h]
    exact ⟨rfl, rfl, fun _ => rfl, rfl⟩
  · rw [h]
    refine ⟨rfl, rfl, ?_, rfl⟩
    intro hfalse
    cases hfalse

/-- Claim C10 (witness): with an oracle whose translation path fails, the
result keeps duration 7, `is_generated = false`, and its
`original_language` equals its `language`. -/
theorem claim10_frame_witness :
    (maybeTranslate ⟨.error (), fun _ => .error ()⟩
        Lang.en (buildResult ['e', 's'] false ['x'] 7)).duration = 7 ∧
    (maybeTranslate ⟨.error (), fun _ => .error ()⟩
        Lang.en (buildResult ['e', 's'] false ['x'] 7)).is_generated = false ∧
    (maybeTranslate ⟨.error (), fun _ => .error ()⟩
        Lang.en (buildResult ['e', 's'] false ['x'] 7)).original_language
      = (maybeTranslate ⟨.error (), fun _ => .error ()⟩
        Lang.en (buildResult ['e', 's'] false ['x'] 7)).language := by
  have h := claim10_frame ⟨.error (), fun _ => .error ()⟩
    Lang.en ['e', 's'] false ['x'] 7
  exact ⟨h.1, h.2.1, h.2.2.1 (by decide)⟩

end YTS
